import Mathlib

/-!
Verification of the time-representation parsing and normalization subsystem of
the campbellsciparser repository.

Python strings are embedded as lists of characters (`Str`), Python exceptions
as an error type (`CRErr`) returned through `Except`, and `OrderedDict` rows as
association lists with explicit OrderedDict-semantics operations.  The Python
standard library collaborators (`datetime.strptime`, `pytz` localization and
conversion) are embedded as executable Lean functions: fixed-offset time zones,
an instant-based aware-datetime model, and a `strptime` interpreter following
CPython's `_strptime` regex semantics for the directives used by this
repository.
-/

/-- Python strings, embedded character by character. -/
abbrev Str := List Char

/-- Column keys of a row: Python `str` or `int` keys of an `OrderedDict`. -/
inductive ColKey where
  | name (s : String)
  | idx (n : Nat)
  deriving DecidableEq, Repr

/--
Error kinds raised by the time subsystem, following the spec's error taxonomy.
`invalidCompactTime`, `missingTimeColumns` and `timeColumnNotFound` are the
three kinds of the source's `TimeColumnValueError`; `timeParsingError` is the
source's `TimeParsingError` carrying the offending value/format pair;
`unsupportedTimeFormat` is the source's `UnsupportedTimeFormatError` carrying
the number of time values given; `indexError` and `typeError` model Python's
built-in `IndexError` and `TypeError`.
-/
inductive CRErr where
  | invalidCompactTime (s : Str)
  | missingTimeColumns
  | timeColumnNotFound (k : ColKey)
  | timeParsingError (val : Str) (fmt : Str)
  | unsupportedTimeFormat (n : Nat)
  | indexError
  | typeError
  deriving DecidableEq, Repr

instance {ε α : Type} [DecidableEq ε] [DecidableEq α] : DecidableEq (Except ε α) := fun x y =>
  match x, y with
  | .error a, .error b =>
      if h : a = b then .isTrue (by rw [h]) else
        .isFalse (fun hh => h (by cases hh; rfl))
  | .ok a, .ok b =>
      if h : a = b then .isTrue (by rw [h]) else
        .isFalse (fun hh => h (by cases hh; rfl))
  | .error _, .ok _ => .isFalse (fun hh => Except.noConfusion hh)
  | .ok _, .error _ => .isFalse (fun hh => Except.noConfusion hh)

/--
Embedding of `cr._parse_hourminute` (src/campbellsciparser/cr.py:278-297),
identical to `CR10Parser._parse_hourminute` (src/campbellsciparser/devices/cr10.py:154-172).
Python slice `s[-2:]` is `drop (length - 2)`, `s[:1]` is `take 1`,
`s[:2]` is `take 2`; `"000" + minute` is list append.
-/
def parse_hourminute (hour_minute_str : Str) : Except CRErr Str :=
  if hour_minute_str.length = 1 then
    .ok (['0', '0', '0'] ++ hour_minute_str)
  else if hour_minute_str.length = 2 then
    .ok (['0', '0'] ++ hour_minute_str.drop (hour_minute_str.length - 2))
  else if hour_minute_str.length = 3 then
    .ok (['0'] ++ hour_minute_str.take 1 ++ hour_minute_str.drop (hour_minute_str.length - 2))
  else if hour_minute_str.length = 4 then
    .ok (hour_minute_str.take 2 ++ hour_minute_str.drop (hour_minute_str.length - 2))
  else
    .error (.invalidCompactTime hour_minute_str)

/-- Python `','.join(strs)`. -/
def joinComma (strs : List Str) : Str := List.intercalate [','] strs

/--
Embedding of `cr._parse_custom_time_formats` (src/campbellsciparser/cr.py:206-240),
identical to `CR10Parser._parse_custom_time_format`
(src/campbellsciparser/devices/cr10.py:88-117): zip the format library against
the time values (truncating at the shorter), decode a value paired with the
custom token `'%H%M'` through `parse_hourminute`, and join both sides with `,`.
The loop aborts at the first decoder error, as the Python `raise` does.
-/
def parse_custom_time_formats (time_format_args_library : List Str) (time_values : List Str) :
    Except CRErr (Str × Str) := do
  let found ← (time_format_args_library.zip time_values).mapM (fun fv =>
    if fv.1 = "%H%M".toList then do
      let v ← parse_hourminute fv.2
      pure (fv.1, v)
    else
      pure fv)
  pure (joinComma (found.map Prod.fst), joinComma (found.map Prod.snd))

/--
Modelled from Python's `datetime.date` calendar (an external standard-library
collaborator): the number of days from 1970-01-01 to the civil date `y-m-d`
(proleptic Gregorian calendar, Howard Hinnant's `days_from_civil` algorithm,
which agrees with `datetime.date.toordinal` up to the constant 719468 - 719162).
-/
def days_from_civil (y m d : Int) : Int :=
  let y2 := y - (if m ≤ 2 then 1 else 0)
  let era := y2.fdiv 400
  let yoe := y2 - era * 400
  let doy := (153 * (if m > 2 then m - 3 else m + 9) + 2).fdiv 5 + d - 1
  let doe := yoe * 365 + yoe.fdiv 4 - yoe.fdiv 100 + doy
  era * 146097 + doe - 719468

/--
Modelled from Python's `datetime.date` calendar: the civil date `(y, m, d)`
that lies `z` days after 1970-01-01 (Howard Hinnant's `civil_from_days`).
-/
def civil_from_days (z : Int) : Int × Int × Int :=
  let z2 := z + 719468
  let era := z2.fdiv 146097
  let doe := z2 - era * 146097
  let yoe := (doe - doe.fdiv 1460 + doe.fdiv 36524 - doe.fdiv 146096).fdiv 365
  let y := yoe + era * 400
  let doy := doe - (365 * yoe + yoe.fdiv 4 - yoe.fdiv 100)
  let mp := (5 * doy + 2).fdiv 153
  let d := doy - (153 * mp + 2).fdiv 5 + 1
  let m := if mp < 10 then mp + 3 else mp - 9
  (y + (if m ≤ 2 then 1 else 0), m, d)

/-- Gregorian leap-year test, as in Python's `calendar.isleap`. -/
def isLeapYear (y : Int) : Bool :=
  y % 4 = 0 && (y % 100 ≠ 0 || y % 400 = 0)

/-- Days in a month, as validated by the Python `datetime` constructor. -/
def daysInMonth (y m : Int) : Int :=
  if m = 2 then (if isLeapYear y then 29 else 28)
  else if m = 4 ∨ m = 6 ∨ m = 9 ∨ m = 11 then 30
  else 31

/-- A timezone-naive Python `datetime`: calendar fields at second granularity. -/
structure NaiveDT where
  year : Int
  month : Int
  day : Int
  hour : Int
  minute : Int
  second : Int
  deriving DecidableEq, Repr

/-- Seconds from the UNIX epoch to the naive datetime read as a UTC wall clock. -/
def instantOfNaive (t : NaiveDT) : Int :=
  86400 * days_from_civil t.year t.month t.day + 3600 * t.hour + 60 * t.minute + t.second

/-- The naive datetime whose UTC wall-clock reading is `i` seconds after the epoch. -/
def naiveOfInstant (i : Int) : NaiveDT :=
  let z := i.fdiv 86400
  let sod := i - 86400 * z
  let c := civil_from_days z
  let h := sod.fdiv 3600
  let rem := sod - 3600 * h
  ⟨c.1, c.2.1, c.2.2, h, rem.fdiv 60, rem - 60 * (rem.fdiv 60)⟩

/--
Modelled from `pytz`: a fixed-offset time zone, given by its UTC offset in
seconds east of UTC (so the POSIX-style zone `Etc/GMT-1` has offset `3600`).
`pytz` name resolution and DST handling are external; every zone exercised by
the repository's time pipeline is used as a fixed offset.
-/
structure Tz where
  utcoffset : Int
  deriving DecidableEq, Repr

/-- The `pytz.utc` zone. -/
def utcTz : Tz := ⟨0⟩

/--
A timezone-aware Python `datetime`, represented by the instant it denotes
(seconds since the UNIX epoch) together with its attached UTC offset; its
wall-clock fields are recovered by `AwareDT.naive`.
-/
structure AwareDT where
  instant : Int
  utcoffset : Int
  deriving DecidableEq, Repr

/-- The wall-clock fields an aware datetime displays in its own zone. -/
def AwareDT.naive (t : AwareDT) : NaiveDT :=
  naiveOfInstant (t.instant + t.utcoffset)

/-- `tz.localize(dt)` for a naive `dt`: attach the offset without shifting the wall clock. -/
def localize (tz : Tz) (t : NaiveDT) : AwareDT :=
  ⟨instantOfNaive t - tz.utcoffset, tz.utcoffset⟩

/-- `dt.astimezone(tz)`: same instant, displayed in the target zone. -/
def astimezone (t : AwareDT) (tz : Tz) : AwareDT :=
  ⟨t.instant, tz.utcoffset⟩

/-- `datetime.fromtimestamp(0, tz)`: the UNIX epoch localized to `tz`. -/
def fromtimestamp0 (tz : Tz) : AwareDT :=
  ⟨0, tz.utcoffset⟩

/-- Numeric value of a digit character. -/
def digitVal (c : Char) : Nat := c.toNat - '0'.toNat

/-- Accumulated directive captures of a `strptime` match (CPython `found_dict`). -/
structure StrpAcc where
  fy : Option Nat := none
  fY : Option Nat := none
  fj : Option Nat := none
  fm : Option Nat := none
  fd : Option Nat := none
  fH : Option Nat := none
  fM : Option Nat := none
  fS : Option Nat := none
  fz : Option Int := none
  deriving DecidableEq, Repr

/--
Modelled from CPython `_strptime.TimeRE`: match one numeric directive at the
head of `s`.  Each directive's regex is an ordered alternation of its two-digit
(or three-digit) forms followed by its shorter forms, so the operational rule is
"take the longest prefix that is a valid value, else fall back to fewer digits".
`need` is the exact digit count for `%y`/`%Y`; `maxTwo` is the largest value the
two-digit alternatives accept; `oneDigitMin` is 1 for directives whose one-digit
alternative is `[1-9]` and 0 for those accepting `\d`.
-/
def matchTwoDigit (maxTwo : Nat) (oneDigitMin : Nat) (s : Str) : Option (Nat × Str) :=
  match s with
  | a :: b :: rest =>
      if a.isDigit && b.isDigit && decide (digitVal a * 10 + digitVal b ≤ maxTwo)
          && decide (oneDigitMin ≤ digitVal a * 10 + digitVal b) then
        some (digitVal a * 10 + digitVal b, rest)
      else if a.isDigit && decide (oneDigitMin ≤ digitVal a) then
        some (digitVal a, b :: rest)
      else
        none
  | [a] =>
      if a.isDigit && decide (oneDigitMin ≤ digitVal a) then some (digitVal a, []) else none
  | [] => none

/-- Match exactly `n` digits (CPython `%y` uses two, `%Y` uses four). -/
def matchExactDigits (n : Nat) (s : Str) : Option (Nat × Str) :=
  let digits := s.take n
  if digits.length = n && digits.all Char.isDigit then
    some (digits.foldl (fun acc c => acc * 10 + digitVal c) 0, s.drop n)
  else
    none

/--
Match `%j` (CPython regex `36[0-6]|3[0-5]\d|[1-2]\d\d|0[1-9]\d|00[1-9]|[1-9]\d|0[1-9]|[1-9]`):
three digits valued 1-366, else two digits valued 1-99, else one digit 1-9.
-/
def matchJulian (s : Str) : Option (Nat × Str) :=
  match s with
  | a :: b :: c :: rest =>
      if a.isDigit && b.isDigit && c.isDigit
          && decide (1 ≤ digitVal a * 100 + digitVal b * 10 + digitVal c)
          && decide (digitVal a * 100 + digitVal b * 10 + digitVal c ≤ 366) then
        some (digitVal a * 100 + digitVal b * 10 + digitVal c, rest)
      else
        matchTwoDigit 99 1 s
  | _ => matchTwoDigit 99 1 s

/-- Match `%z` (CPython regex `[+-]\d\d[0-5]\d`), returning the offset in seconds. -/
def matchOffset (s : Str) : Option (Int × Str) :=
  match s with
  | sign :: h1 :: h2 :: m1 :: m2 :: rest =>
      if (sign = '+' || sign = '-') && h1.isDigit && h2.isDigit
          && m1.isDigit && m2.isDigit && decide (digitVal m1 ≤ 5) then
        let mag : Int := 3600 * (digitVal h1 * 10 + digitVal h2) + 60 * (digitVal m1 * 10 + digitVal m2)
        some (if sign = '-' then -mag else mag, rest)
      else
        none
  | _ => none

/--
Match one `strptime` directive, named by its letter, updating the capture
accumulator.  A repeated directive is rejected (CPython compiles each directive
to a named regex group, and group-name redefinition is an error).  An unknown
directive letter is rejected, as CPython raises for a bad directive.
-/
def matchDirective (c : Char) (s : Str) (acc : StrpAcc) : Option (StrpAcc × Str) :=
  if c = 'y' then
    (matchExactDigits 2 s).bind (fun vr =>
      if acc.fy.isNone then some ({ acc with fy := some vr.1 }, vr.2) else none)
  else if c = 'Y' then
    (matchExactDigits 4 s).bind (fun vr =>
      if acc.fY.isNone then some ({ acc with fY := some vr.1 }, vr.2) else none)
  else if c = 'j' then
    (matchJulian s).bind (fun vr =>
      if acc.fj.isNone then some ({ acc with fj := some vr.1 }, vr.2) else none)
  else if c = 'm' then
    (matchTwoDigit 12 1 s).bind (fun vr =>
      if acc.fm.isNone then some ({ acc with fm := some vr.1 }, vr.2) else none)
  else if c = 'd' then
    (matchTwoDigit 31 1 s).bind (fun vr =>
      if acc.fd.isNone then some ({ acc with fd := some vr.1 }, vr.2) else none)
  else if c = 'H' then
    (matchTwoDigit 23 0 s).bind (fun vr =>
      if acc.fH.isNone then some ({ acc with fH := some vr.1 }, vr.2) else none)
  else if c = 'M' then
    (matchTwoDigit 59 0 s).bind (fun vr =>
      if acc.fM.isNone then some ({ acc with fM := some vr.1 }, vr.2) else none)
  else if c = 'S' then
    (matchTwoDigit 61 0 s).bind (fun vr =>
      if acc.fS.isNone then some ({ acc with fS := some vr.1 }, vr.2) else none)
  else if c = 'z' then
    (matchOffset s).bind (fun vr =>
      if acc.fz.isNone then some ({ acc with fz := some vr.1 }, vr.2) else none)
  else
    none

/-- Drop a nonempty run of whitespace (CPython compiles format whitespace to `\s+`). -/
def matchSpaces (s : Str) : Option Str :=
  match s with
  | c :: rest => if c.isWhitespace then some (rest.dropWhile Char.isWhitespace) else none
  | [] => none

/--
Scan the format against the data string, as CPython's compiled `strptime`
regex does, requiring directives and literals to match in order.
-/
def strpScan (format : Str) (s : Str) (acc : StrpAcc) : Option (StrpAcc × Str) :=
  match format with
  | [] => some (acc, s)
  | '%' :: c :: fmtRest =>
      match matchDirective c s acc with
      | some (acc', rest) => strpScan fmtRest rest acc'
      | none => none
  | ['%'] => none
  | c :: fmtRest =>
      if c.isWhitespace then
        match matchSpaces s with
        | some rest => strpScan fmtRest rest acc
        | none => none
      else
        match s with
        | c' :: rest => if c' = c then strpScan fmtRest rest acc else none
        | [] => none

/--
Modelled from CPython `_strptime`: resolve the captured directives to calendar
fields.  A two-digit year maps to 2000-2068 or 1969-1999; `%j` with the
resolved year determines month and day through the date ordinal (rolling over
year boundaries, as `date.fromordinal` does); absent fields default to
1900-01-01 00:00:00.  The `datetime` constructor's range checks reject a day
beyond the month's length and a leap second.
-/
def strpBuild (acc : StrpAcc) : Option NaiveDT :=
  let year : Int :=
    match acc.fY, acc.fy with
    | some y4, _ => (y4 : Int)
    | none, some y2 => if y2 ≤ 68 then 2000 + (y2 : Int) else 1900 + (y2 : Int)
    | none, none => 1900
  let hour : Int := (acc.fH.getD 0 : Nat)
  let minute : Int := (acc.fM.getD 0 : Nat)
  let second : Int := (acc.fS.getD 0 : Nat)
  if second ≥ 60 then
    none
  else
    match acc.fj with
    | some j =>
        let c := civil_from_days (days_from_civil year 1 1 + ((j : Int) - 1))
        some ⟨c.1, c.2.1, c.2.2, hour, minute, second⟩
    | none =>
        let month : Int := (acc.fm.getD 1 : Nat)
        let day : Int := (acc.fd.getD 1 : Nat)
        if day ≤ daysInMonth year month then
          some ⟨year, month, day, hour, minute, second⟩
        else
          none

/--
Modelled from `datetime.strptime(data_string, format)` (CPython `_strptime`)
for the directives `%y %Y %j %m %d %H %M %S %z` used by this repository's
format libraries: returns the parsed naive fields and the `%z` offset when one
was captured, or `none` for every failure CPython reports as `ValueError`
(non-matching data, unconverted trailing data, a bad directive, or
out-of-range constructor fields).
-/
def strptime (data_string : Str) (format : Str) : Option (NaiveDT × Option Int) :=
  match strpScan format data_string {} with
  | some (acc, []) => (strpBuild acc).map (fun dt => (dt, acc.fz))
  | some (_, _ :: _) => none
  | none => none

/--
Embedding of `cr._parse_time_values` (src/campbellsciparser/cr.py:300-359),
identical to `CampbellSCIBaseParser.parse_time_values`
(src/campbellsciparser/devices/base.py:277-320): resolve the format library
against the time values, parse the combined pair with `strptime`, substitute
the epoch on failure when `ignore_parsing_error` is set (else raise
`TimeParsingError` with the offending pair), localize a naive result
(an already-offset-carrying result is kept as is, mirroring the
`except ValueError` around `pytz`'s `localize`), and finally convert to UTC
when `to_utc` is set.
-/
def parse_time_values (pytz_time_zone : Tz) (time_format_args_library : List Str)
    (time_values : List Str) (ignore_parsing_error : Bool) (to_utc : Bool) :
    Except CRErr AwareDT := do
  let (parsed_time_format, parsed_time) ←
    parse_custom_time_formats time_format_args_library time_values
  let local_dt ←
    match strptime parsed_time parsed_time_format with
    | none =>
        if ignore_parsing_error then
          pure (fromtimestamp0 pytz_time_zone)
        else
          Except.error (CRErr.timeParsingError parsed_time parsed_time_format)
    | some (dt, none) => pure (localize pytz_time_zone dt)
    | some (dt, some off) => pure ⟨instantOfNaive dt - off, off⟩
  let parsed_dt := if to_utc then astimezone local_dt utcTz else local_dt
  pure parsed_dt

/-- The CR10 default time format library (src/campbellsciparser/devices/cr10.py:84). -/
def cr10TimeFormatArgsLibrary : List Str := ["%y".toList, "%j".toList, "%H%M".toList]

/-- The fixed-offset zone `pytz.timezone('Etc/GMT-1')`: one hour east of UTC. -/
def etcGMTMinus1 : Tz := ⟨3600⟩

/-- Cell values of a row: a raw string column or an already-parsed timestamp. -/
inductive CellVal where
  | raw (s : Str)
  | ts (t : AwareDT)
  deriving DecidableEq, Repr

/-- Joining a timestamp cell into a time string is a Python `TypeError`. -/
def CellVal.asStr : CellVal → Except CRErr Str
  | .raw s => .ok s
  | .ts _ => .error .typeError

/-- A `Row` (src/campbellsciparser/dataset.py): an `OrderedDict` as an ordered association list with unique keys. -/
abbrev CRRow := List (ColKey × CellVal)

/-- `OrderedDict` `row[k] = v`: overwrite in place if `k` is present, else append. -/
def odSet (row : CRRow) (k : ColKey) (v : CellVal) : CRRow :=
  match row with
  | [] => [(k, v)]
  | p :: rest => if p.1 = k then (k, v) :: rest else p :: odSet rest k v

/-- `OrderedDict` `del row[k]`: remove the entry at `k` (callers guard on membership). -/
def odDel (row : CRRow) (k : ColKey) : CRRow :=
  match row with
  | [] => []
  | p :: rest => if p.1 = k then rest else p :: odDel rest k

/-- `OrderedDict(pairs)`: first occurrence fixes the position, last fixes the value. -/
def odOfPairs (pairs : List (ColKey × CellVal)) : CRRow :=
  pairs.foldl (fun row p => odSet row p.1 p.2) []

/-- The keys of a row, in order (`row.keys()`). -/
def odKeys (row : CRRow) : List ColKey := row.map Prod.fst

/--
Embedding of `cr._find_first_time_column_name`
(src/campbellsciparser/cr.py:176-203): scan the column names in order for the
first one equal to `time_columns[0]`.
-/
def find_first_time_column_name (column_names : List ColKey) (time_columns : List ColKey) :
    Except CRErr ColKey :=
  match time_columns with
  | [] => .error .indexError
  | tc0 :: _ =>
      match column_names.find? (fun name => name = tc0) with
      | some name => .ok name
      | none => .error (.timeColumnNotFound tc0)

/--
The per-row body of `cr.parse_time`'s loop (src/campbellsciparser/cr.py:968-1002):
locate the insertion key, extract the time-column values in row order, parse
them, rename the insertion key to the output key (OrderedDict last-write-wins),
set the parsed timestamp there, and delete every other time column.
-/
def parse_time_row (pytz_time_zone : Tz) (time_format_args_library : List Str)
    (time_columns : List ColKey) (time_parsed_column : Option ColKey)
    (replace_time_column : Option ColKey) (to_utc : Bool) (row : CRRow) :
    Except CRErr CRRow := do
  let replace_time_column_name ←
    match replace_time_column with
    | none => find_first_time_column_name (odKeys row) time_columns
    | some k =>
        if k ∈ odKeys row then pure k else Except.error (CRErr.timeColumnNotFound k)
  let row_time_column_values := (row.filter (fun p => time_columns.contains p.1)).map Prod.snd
  let row_time_strings ← row_time_column_values.mapM CellVal.asStr
  let row_time_converted ←
    parse_time_values pytz_time_zone time_format_args_library row_time_strings false to_utc
  let old_name := replace_time_column_name
  let new_name := time_parsed_column.getD old_name
  let row_renamed := odOfPairs (row.map (fun p => (if p.1 = old_name then new_name else p.1, p.2)))
  let row_with_ts := odSet row_renamed new_name (CellVal.ts row_time_converted)
  let row_converted := time_columns.foldl
    (fun r tc => if tc ∈ odKeys r ∧ tc ≠ new_name then odDel r tc else r) row_with_ts
  pure row_converted

/--
Embedding of `cr.parse_time` (src/campbellsciparser/cr.py:857-1004), identical
in the modelled respects to `CampbellSCIBaseParser.convert_time`
(src/campbellsciparser/devices/base.py:208-248): reject an empty (or missing)
time-column list before touching any row, then convert each row in order.
`pytz` zone-name validation happens before this function's model (the zone
argument is already resolved).
-/
def parse_time (time_zone : Tz) (time_format_args_library : List Str) (data : List CRRow)
    (time_columns : List ColKey) (time_parsed_column : Option ColKey)
    (replace_time_column : Option ColKey) (to_utc : Bool) : Except CRErr (List CRRow) :=
  if time_columns.isEmpty then
    .error .missingTimeColumns
  else
    data.mapM (parse_time_row time_zone time_format_args_library time_columns
      time_parsed_column replace_time_column to_utc)

/--
Embedding of `CR10XTimeParser._parse_hourminute`
(src/campbellsciparser/timeparser.py:100-131), identical to
`CR10XParser._parse_hourminute` (src/campbellsciparser/device.py:355-386): the
colon-separated variant of the Hour/Minute decoder, returning the generic
format token `'%H:%M'` together with the decoded `HH:MM` value.
-/
def crx_parse_hourminute (hour_minute_str : Str) : Except CRErr (Str × Str) :=
  if hour_minute_str.length = 1 then
    .ok ("%H:%M".toList, ['0', '0', ':', '0'] ++ hour_minute_str)
  else if hour_minute_str.length = 2 then
    .ok ("%H:%M".toList, ['0', '0', ':'] ++ hour_minute_str.drop (hour_minute_str.length - 2))
  else if hour_minute_str.length = 3 then
    .ok ("%H:%M".toList,
      ['0'] ++ hour_minute_str.take 1 ++ [':'] ++ hour_minute_str.drop (hour_minute_str.length - 2))
  else if hour_minute_str.length = 4 then
    .ok ("%H:%M".toList,
      hour_minute_str.take 2 ++ [':'] ++ hour_minute_str.drop (hour_minute_str.length - 2))
  else
    .error (.invalidCompactTime hour_minute_str)

/--
The shared loop body of the two historical CR10X custom-token expanders
(src/campbellsciparser/timeparser.py:85-98 and
src/campbellsciparser/device.py:405-418): build the format-token list by
indexing the library at each value's position (Python `IndexError` when the
library is shorter), and when the third value (index 2, the Hour/Minute
column) is reached, replace both the token and the value with the decoded
colon form.
-/
def crxExpandLoop (time_format_library : List Str) (time_values : List Str) :
    Except CRErr (Str × Str) := do
  let found_time_format_args ← (List.range time_values.length).mapM (fun i =>
    match time_format_library.get? i with
    | some f => pure f
    | none => Except.error CRErr.indexError)
  if h : 2 < time_values.length then do
    let pr ← crx_parse_hourminute (time_values.get ⟨2, h⟩)
    pure (joinComma (found_time_format_args.set 2 pr.1), joinComma (time_values.set 2 pr.2))
  else
    pure (joinComma found_time_format_args, joinComma time_values)

/--
Embedding of `CR10XTimeParser.parse_custom_format`
(src/campbellsciparser/timeparser.py:73-98): reject the request with
`UnsupportedTimeFormatError` when more than TWO time values are given, then
run the expansion loop.
-/
def crx_parse_custom_format (time_format_library : List Str) (timevalues : List Str) :
    Except CRErr (Str × Str) :=
  if timevalues.length > 2 then
    .error (.unsupportedTimeFormat timevalues.length)
  else
    crxExpandLoop time_format_library timevalues

/--
Embedding of `CR10XParser._parse_custom_time_format`
(src/campbellsciparser/device.py:388-418): same expander, but rejecting with
`UnsupportedTimeFormatError` only when more than THREE time values are given,
as its docstring states ("If more than three arguments is being passed").
-/
def cr10x_parse_custom_time_format (time_format_library : List Str) (timevalues : List Str) :
    Except CRErr (Str × Str) :=
  if timevalues.length > 3 then
    .error (.unsupportedTimeFormat timevalues.length)
  else
    crxExpandLoop time_format_library timevalues

/-- The CR10X time format library of both historical expanders
(src/campbellsciparser/timeparser.py:71 and src/campbellsciparser/device.py:349). -/
def crxTimeFormatLibrary : List Str := ["%Y".toList, "%j".toList, "Hour/Minute".toList]

instance : DecidableEq CRRow := inferInstance

instance : DecidableEq (List CRRow) := inferInstance

/--
C1: the Hour/Minute decoder classifies purely by string length: a length-1
input is returned as `"000" + s`, length 2 as `"00" + s`, length 3 as
`"0" + s[0] + s[1:3]` (so `"945"` is hour 9, minute 45), length 4 unchanged,
and every other length (the empty string and strings of five or more
characters) raises `TimeColumnValueError`; with the stated concrete cases.
-/
theorem C1_hour_minute_length_classification :
    (∀ s : Str,
      (s.length = 1 → parse_hourminute s = .ok ('0' :: '0' :: '0' :: s)) ∧
      (s.length = 2 → parse_hourminute s = .ok ('0' :: '0' :: s)) ∧
      (s.length = 3 → parse_hourminute s = .ok ('0' :: s.take 1 ++ (s.drop 1).take 2)) ∧
      (s.length = 4 → parse_hourminute s = .ok s) ∧
      (s.length = 0 ∨ 5 ≤ s.length → parse_hourminute s = .error (.invalidCompactTime s))) ∧
    parse_hourminute "0".toList = .ok "0000".toList ∧
    parse_hourminute "30".toList = .ok "0030".toList ∧
    parse_hourminute "945".toList = .ok "0945".toList ∧
    parse_hourminute "2355".toList = .ok "2355".toList ∧
    parse_hourminute "".toList = .error (.invalidCompactTime "".toList) ∧
    parse_hourminute "12345".toList = .error (.invalidCompactTime "12345".toList) := by
  refine ⟨?_, by decide, by decide, by decide, by decide, by decide, by decide⟩
  intro s
  refine ⟨?_, ?_, ?_, ?_, ?_⟩
  · intro h; simp [parse_hourminute, h]
  · intro h; simp [parse_hourminute, h]
  · intro h
    have h2 : (s.drop 1).take 2 = s.drop 1 :=
      List.take_of_length_le (by simp [h])
    simp [parse_hourminute, h, h2]
  · intro h
    simp [parse_hourminute, h, List.take_append_drop]
  · intro h
    have h1 : s.length ≠ 1 := by omega
    have h2 : s.length ≠ 2 := by omega
    have h3 : s.length ≠ 3 := by omega
    have h4 : s.length ≠ 4 := by omega
    simp [parse_hourminute, h1, h2, h3, h4]

/-- Witness for C1 at the concrete length-4 input `"2355"`. -/
theorem C1_witness :
    "2355".toList.length = 4 ∧ parse_hourminute "2355".toList = .ok "2355".toList :=
  ⟨by decide, (C1_hour_minute_length_classification.1 "2355".toList).2.2.2.1 (by decide)⟩

/--
C10: the Hour/Minute decoder validates only the length of its input, never its
characters: every string of length 1 to 4 — including non-digit strings such
as `"abcd"` (returned unchanged) and digit strings encoding out-of-range times
such as minute 99 — is returned without raising, so the length-error branch is
unreachable under the precondition `1 ≤ len(s) ≤ 4`.
-/
theorem C10_hour_minute_length_only_validation :
    (∀ s : Str, 1 ≤ s.length → s.length ≤ 4 → ∃ out : Str, parse_hourminute s = .ok out) ∧
    parse_hourminute "abcd".toList = .ok "abcd".toList ∧
    parse_hourminute "1299".toList = .ok "1299".toList ∧
    parse_hourminute "99".toList = .ok "0099".toList := by
  refine ⟨?_, by decide, by decide, by decide⟩
  intro s hlo hhi
  rcases (by omega : s.length = 1 ∨ s.length = 2 ∨ s.length = 3 ∨ s.length = 4) with h | h | h | h
  · exact ⟨'0' :: '0' :: '0' :: s, by simp [parse_hourminute, h]⟩
  · exact ⟨'0' :: '0' :: s, by simp [parse_hourminute, h]⟩
  · exact ⟨'0' :: (s.take 1 ++ s.tail), by simp [parse_hourminute, h]⟩
  · exact ⟨s, by simp [parse_hourminute, h]⟩

/-- Witness for C10 at the out-of-range digit input `"99"` (minute 99). -/
theorem C10_witness :
    1 ≤ "99".toList.length ∧ "99".toList.length ≤ 4 ∧
      ∃ out : Str, parse_hourminute "99".toList = .ok out :=
  ⟨by decide, by decide,
    C10_hour_minute_length_only_validation.1 "99".toList (by decide) (by decide)⟩

/--
C6: calling `parse_time`/`convert_time` with an empty time-column list raises
`TimeColumnValueError` of the `MissingTimeColumns` kind regardless of the data
set, the timezone, the format library and every other argument, before any row
is examined.
-/
theorem C6_empty_time_columns_rejected :
    ∀ (tz : Tz) (lib : List Str) (data : List CRRow) (tpc rtc : Option ColKey) (toUtc : Bool),
      parse_time tz lib data [] tpc rtc toUtc = .error .missingTimeColumns := by
  intro tz lib data tpc rtc toUtc
  simp [parse_time]

/-- Witness for C6 on a nonempty data set whose rows could never be converted. -/
theorem C6_witness :
    parse_time etcGMTMinus1 cr10TimeFormatArgsLibrary [[(.idx 0, .raw "junk".toList)]] []
      none none true = .error .missingTimeColumns :=
  C6_empty_time_columns_rejected etcGMTMinus1 cr10TimeFormatArgsLibrary
    [[(.idx 0, .raw "junk".toList)]] none none true

/--
C7: with the CR10 profile (default format library `['%y', '%j', '%H%M']`) and
the fixed-offset zone `Etc/GMT-1`, the row time values `["16", "30", "2230"]`
parse to 2016-01-30T22:30:00+01:00, and the same parse with `to_utc=True`
yields 2016-01-30T21:30:00+00:00.
-/
theorem C7_cr10_end_to_end :
    (parse_time_values etcGMTMinus1 cr10TimeFormatArgsLibrary
        ["16".toList, "30".toList, "2230".toList] false false).map
          (fun t => (t.naive, t.utcoffset)) = .ok (⟨2016, 1, 30, 22, 30, 0⟩, 3600) ∧
    (parse_time_values etcGMTMinus1 cr10TimeFormatArgsLibrary
        ["16".toList, "30".toList, "2230".toList] false true).map
          (fun t => (t.naive, t.utcoffset)) = .ok (⟨2016, 1, 30, 21, 30, 0⟩, 0) := by
  constructor <;> decide

/--
C8: the claim says the CR10-family custom-token expander accepts at most 3
time values (Year, Day, Hour/Minute) and raises `UnsupportedTimeFormatError`
on any greater number.  `CR10XParser._parse_custom_time_format`
(src/campbellsciparser/device.py:388-418) does exactly that, but
`CR10XTimeParser.parse_custom_format` (src/campbellsciparser/timeparser.py:73-98)
rejects more than TWO values, so it raises on exactly three — contradicting its
own error message ("only supports Year, Day, Hour/Minute"), its three-token
format library, and its dead Hour/Minute branch at index 2.
-/
theorem C8_expander_value_count_guard :
    crx_parse_custom_format crxTimeFormatLibrary
        ["16".toList, "30".toList, "2230".toList] = .error (.unsupportedTimeFormat 3) ∧
    cr10x_parse_custom_time_format crxTimeFormatLibrary
        ["16".toList, "30".toList, "2230".toList]
      = .ok ("%Y,%j,%H:%M".toList, "16,30,22:30".toList) ∧
    (∀ vals : List Str, vals.length > 3 →
      cr10x_parse_custom_time_format crxTimeFormatLibrary vals
        = .error (.unsupportedTimeFormat vals.length)) ∧
    (∀ vals : List Str, vals.length > 2 →
      crx_parse_custom_format crxTimeFormatLibrary vals
        = .error (.unsupportedTimeFormat vals.length)) := by
  refine ⟨by decide, by decide, ?_, ?_⟩
  · intro vals h
    simp [cr10x_parse_custom_time_format, h]
  · intro vals h
    simp [crx_parse_custom_format, h]

/-- Witness for C8 at four time values, where both expanders raise. -/
theorem C8_witness :
    (["16".toList, "30".toList, "2230".toList, "5".toList] : List Str).length > 3 ∧
      cr10x_parse_custom_time_format crxTimeFormatLibrary
        ["16".toList, "30".toList, "2230".toList, "5".toList]
        = .error (.unsupportedTimeFormat 4) :=
  ⟨by decide, C8_expander_value_count_guard.2.2.1
    ["16".toList, "30".toList, "2230".toList, "5".toList] (by decide)⟩

/--
C3: for every configured timezone, format library and raw-value sequence whose
combined format/value pair cannot be parsed, the generic timestamp parser
returns the UNIX epoch localized to the configured timezone when
`ignore_parsing_error` is true, and raises `TimeParsingError` carrying the
offending value/format pair when it is false (the default), whatever `to_utc`.
-/
theorem C3_ignore_parsing_error_policy :
    ∀ (tz : Tz) (lib vals : List Str) (fmt val : Str),
      parse_custom_time_formats lib vals = .ok (fmt, val) →
      strptime val fmt = none →
      parse_time_values tz lib vals true false = .ok (fromtimestamp0 tz) ∧
      fromtimestamp0 tz = ⟨0, tz.utcoffset⟩ ∧
      (∀ toUtc : Bool, parse_time_values tz lib vals false toUtc
        = .error (.timeParsingError val fmt)) := by
  intro tz lib vals fmt val hres hstrp
  refine ⟨?_, rfl, ?_⟩
  · simp [parse_time_values, hres, hstrp, Bind.bind, Except.bind, Pure.pure, Except.pure]
  · intro toUtc
    simp [parse_time_values, hres, hstrp, Bind.bind, Except.bind, Pure.pure, Except.pure]

/-- Witness for C3 at the unit-test input: format `%NotParsable`, one value. -/
theorem C3_witness :
    parse_custom_time_formats ["%NotParsable".toList] ["2016-01-01 22:15:30".toList]
        = .ok ("%NotParsable".toList, "2016-01-01 22:15:30".toList) ∧
      strptime "2016-01-01 22:15:30".toList "%NotParsable".toList = none ∧
      parse_time_values etcGMTMinus1 ["%NotParsable".toList] ["2016-01-01 22:15:30".toList]
        true false = .ok (fromtimestamp0 etcGMTMinus1) ∧
      parse_time_values etcGMTMinus1 ["%NotParsable".toList] ["2016-01-01 22:15:30".toList]
        false false
        = .error (.timeParsingError "2016-01-01 22:15:30".toList "%NotParsable".toList) :=
  ⟨by decide, by decide,
    (C3_ignore_parsing_error_policy etcGMTMinus1 ["%NotParsable".toList]
      ["2016-01-01 22:15:30".toList] "%NotParsable".toList "2016-01-01 22:15:30".toList
      (by decide) (by decide)).1,
    (C3_ignore_parsing_error_policy etcGMTMinus1 ["%NotParsable".toList]
      ["2016-01-01 22:15:30".toList] "%NotParsable".toList "2016-01-01 22:15:30".toList
      (by decide) (by decide)).2.2 false⟩

/--
C4: for every configured timezone, an empty format library or an empty
raw-value sequence makes the resolver yield two empty strings and the generic
timestamp parser succeed with the sentinel 1900-01-01T00:00:00 localized to
the configured timezone (whatever `ignore_parsing_error`), not an error.
-/
theorem C4_empty_inputs_sentinel :
    ∀ (tz : Tz) (lib vals : List Str) (ig : Bool),
      lib = [] ∨ vals = [] →
      parse_custom_time_formats lib vals = .ok ([], []) ∧
      parse_time_values tz lib vals ig false = .ok (localize tz ⟨1900, 1, 1, 0, 0, 0⟩) ∧
      (localize tz ⟨1900, 1, 1, 0, 0, 0⟩).utcoffset = tz.utcoffset ∧
      (localize tz ⟨1900, 1, 1, 0, 0, 0⟩).naive = ⟨1900, 1, 1, 0, 0, 0⟩ := by
  intro tz lib vals ig h
  have hres : parse_custom_time_formats lib vals = .ok ([], []) := by
    rcases h with h | h <;> subst h <;>
      simp [parse_custom_time_formats, joinComma, List.intercalate, Bind.bind, Except.bind,
        Pure.pure, Except.pure, List.mapM.loop]
  have hstrp : strptime ([] : Str) ([] : Str) = some (⟨1900, 1, 1, 0, 0, 0⟩, none) := by decide
  refine ⟨hres, ?_, rfl, ?_⟩
  · simp [parse_time_values, hres, hstrp, Bind.bind, Except.bind, Pure.pure, Except.pure]
  · show naiveOfInstant (instantOfNaive ⟨1900, 1, 1, 0, 0, 0⟩ - tz.utcoffset + tz.utcoffset)
      = ⟨1900, 1, 1, 0, 0, 0⟩
    rw [Int.sub_add_cancel]
    decide

/-- Witness for C4 with an empty library but a nonempty value sequence. -/
theorem C4_witness :
    (([] : List Str) = [] ∨ (["2016-01-01 22:15:30".toList] : List Str) = []) ∧
      parse_time_values etcGMTMinus1 [] ["2016-01-01 22:15:30".toList] false false
        = .ok (localize etcGMTMinus1 ⟨1900, 1, 1, 0, 0, 0⟩) ∧
      (localize etcGMTMinus1 ⟨1900, 1, 1, 0, 0, 0⟩).naive = ⟨1900, 1, 1, 0, 0, 0⟩ :=
  ⟨Or.inl rfl,
    (C4_empty_inputs_sentinel etcGMTMinus1 [] ["2016-01-01 22:15:30".toList] false
      (Or.inl rfl)).2.1,
    (C4_empty_inputs_sentinel etcGMTMinus1 [] ["2016-01-01 22:15:30".toList] false
      (Or.inl rfl)).2.2.2⟩

/--
C9: in the generic timestamp parser the `to_utc` conversion is applied
uniformly after the epoch-fallback substitution: on parse failure with
`ignore_parsing_error` and `to_utc` both true, the result is the epoch
fallback converted to UTC — wall clock 1970-01-01T00:00:00 at offset +00:00 —
denoting the same instant as the fallback value itself.
-/
theorem C9_fallback_respects_to_utc :
    ∀ (tz : Tz) (lib vals : List Str) (fmt val : Str),
      parse_custom_time_formats lib vals = .ok (fmt, val) →
      strptime val fmt = none →
      parse_time_values tz lib vals true true = .ok (astimezone (fromtimestamp0 tz) utcTz) ∧
      astimezone (fromtimestamp0 tz) utcTz = ⟨0, 0⟩ ∧
      (⟨0, 0⟩ : AwareDT).naive = ⟨1970, 1, 1, 0, 0, 0⟩ ∧
      (astimezone (fromtimestamp0 tz) utcTz).instant = (fromtimestamp0 tz).instant := by
  intro tz lib vals fmt val hres hstrp
  refine ⟨?_, rfl, by decide, rfl⟩
  simp [parse_time_values, hres, hstrp, Bind.bind, Except.bind, Pure.pure, Except.pure,
    astimezone, fromtimestamp0, utcTz]

/-- Witness for C9 at a failing pair: CR10 library with a non-numeric Year value. -/
theorem C9_witness :
    parse_custom_time_formats cr10TimeFormatArgsLibrary
        ["xx".toList, "30".toList, "2230".toList]
        = .ok ("%y,%j,%H%M".toList, "xx,30,2230".toList) ∧
      strptime "xx,30,2230".toList "%y,%j,%H%M".toList = none ∧
      parse_time_values etcGMTMinus1 cr10TimeFormatArgsLibrary
        ["xx".toList, "30".toList, "2230".toList] true true
        = .ok (astimezone (fromtimestamp0 etcGMTMinus1) utcTz) :=
  ⟨by decide, by decide,
    (C9_fallback_respects_to_utc etcGMTMinus1 cr10TimeFormatArgsLibrary
      ["xx".toList, "30".toList, "2230".toList] "%y,%j,%H%M".toList "xx,30,2230".toList
      (by decide) (by decide)).1⟩

theorem zip_map_fst_take {α β : Type} (l1 : List α) (l2 : List β) :
    (l1.zip l2).map Prod.fst = l1.take l2.length := by
  induction l1 generalizing l2 with
  | nil => simp
  | cons a t ih =>
      cases l2 with
      | nil => simp
      | cons b t2 => simp [ih]

theorem take_min_length {α : Type} (l : List α) (n : Nat) :
    l.take (min l.length n) = l.take n := by
  rcases le_total l.length n with h | h
  · rw [min_eq_left h, List.take_length, List.take_of_length_le h]
  · rw [min_eq_right h]

theorem zip_take_min {α β : Type} (l1 : List α) (l2 : List β) :
    (l1.take (min l1.length l2.length)).zip (l2.take (min l1.length l2.length)) = l1.zip l2 := by
  induction l1 generalizing l2 with
  | nil => simp
  | cons a t ih =>
      cases l2 with
      | nil => simp
      | cons b t2 =>
          simp only [List.length_cons, Nat.succ_min_succ, List.take_succ_cons,
            List.zip_cons_cons, ih]

theorem except_bind_ok_iff {ε α β : Type} (x : Except ε α) (f : α → Except ε β) (b : β) :
    x >>= f = .ok b ↔ ∃ a, x = .ok a ∧ f a = .ok b := by
  cases x <;> simp [Bind.bind, Except.bind]

theorem exceptMapM_ok_length {ε α β : Type} (f : α → Except ε β) :
    ∀ (l : List α) (l' : List β), l.mapM f = .ok l' → l'.length = l.length := by
  intro l
  induction l with
  | nil =>
      intro l' h
      simp only [List.mapM_nil, Pure.pure, Except.pure, Except.ok.injEq] at h
      simp [← h]
  | cons a t ih =>
      intro l' h
      rw [List.mapM_cons] at h
      rw [except_bind_ok_iff] at h
      obtain ⟨b, hb, h⟩ := h
      rw [except_bind_ok_iff] at h
      obtain ⟨bs, hbs, h⟩ := h
      simp only [Pure.pure, Except.pure, Except.ok.injEq] at h
      subst h
      simp [ih bs hbs]

theorem hm_step_as_map (fv : Str × Str) :
    (if fv.1 = "%H%M".toList then do
        let v ← parse_hourminute fv.2
        pure (fv.1, v)
      else
        pure fv)
      = (if fv.1 = "%H%M".toList then parse_hourminute fv.2 else pure fv.2).map
          (fun w => (fv.1, w)) := by
  by_cases hf : fv.1 = "%H%M".toList
  · rw [if_pos hf, if_pos hf]
    cases hph : parse_hourminute fv.2 <;> rfl
  · rw [if_neg hf, if_neg hf]
    rfl

theorem mapM_hm_step_decomp :
    ∀ pairs : List (Str × Str),
      pairs.mapM (fun fv =>
          if fv.1 = "%H%M".toList then do
            let v ← parse_hourminute fv.2
            pure (fv.1, v)
          else
            pure fv)
        = (pairs.mapM (fun fv =>
            if fv.1 = "%H%M".toList then parse_hourminute fv.2 else pure fv.2)).map
            (fun ws => (pairs.map Prod.fst).zip ws) := by
  intro pairs
  induction pairs with
  | nil =>
      simp only [List.mapM_nil]
      rfl
  | cons fv t ih =>
      rw [List.mapM_cons, List.mapM_cons, hm_step_as_map, ih]
      cases h1 : (if fv.1 = "%H%M".toList then parse_hourminute fv.2 else pure fv.2) with
      | error e => simp [Except.map, Bind.bind, Except.bind]
      | ok w =>
          cases h2 : t.mapM (fun fv =>
              if fv.1 = "%H%M".toList then parse_hourminute fv.2 else pure fv.2) with
          | error e => simp [Except.map, Bind.bind, Except.bind]
          | ok ws => simp [Except.map, Bind.bind, Except.bind, Pure.pure, Except.pure]

/--
C5: the time-format resolver pairs the format library and the raw values
positionally up to `min(len(format_library), len(raw_values))` — extra format
tokens or extra raw values beyond the shorter sequence's length are silently
dropped and never cause an error — decodes each value paired with the `'%H%M'`
token through the Hour/Minute decoder, and returns the resulting tokens and
values each joined with `','`.
-/
theorem C5_resolver_positional_zip :
    ∀ (lib vals : List Str),
      parse_custom_time_formats lib vals
        = ((lib.zip vals).mapM (fun fv =>
            if fv.1 = "%H%M".toList then parse_hourminute fv.2 else pure fv.2)).map
            (fun ws => (joinComma (lib.take (min lib.length vals.length)), joinComma ws)) ∧
      parse_custom_time_formats lib vals
        = parse_custom_time_formats (lib.take (min lib.length vals.length))
            (vals.take (min lib.length vals.length)) := by
  intro lib vals
  constructor
  · simp only [parse_custom_time_formats]
    rw [mapM_hm_step_decomp]
    cases hws : (lib.zip vals).mapM (fun fv =>
        if fv.1 = "%H%M".toList then parse_hourminute fv.2 else pure fv.2) with
    | error e => simp [Bind.bind, Except.bind, Except.map]
    | ok ws =>
        have hlen : ws.length = (lib.zip vals).length := exceptMapM_ok_length _ _ _ hws
        have hmin : ws.length = min lib.length vals.length := by
          simpa [List.length_zip] using hlen
        have h1 : List.take ws.length (List.take vals.length lib) = List.take vals.length lib :=
          List.take_of_length_le (by rw [List.length_take, hmin]; omega)
        have h2 : ((List.take vals.length lib).zip ws).map Prod.snd = ws :=
          List.map_snd_zip _ _ (by rw [List.length_take, hmin]; omega)
        simp only [Except.map, Bind.bind, Except.bind, Pure.pure, Except.pure,
          zip_map_fst_take, take_min_length, h1, h2]
  · have hz := zip_take_min lib vals
    simp only [parse_custom_time_formats, hz]

theorem odSet_of_not_mem (r : CRRow) (k : ColKey) (v : CellVal) (h : ¬ k ∈ odKeys r) :
    odSet r k v = r ++ [(k, v)] := by
  induction r with
  | nil => rfl
  | cons p t ih =>
      simp only [odKeys, List.map_cons, List.mem_cons, not_or] at h
      have hne : ¬ p.1 = k := fun hh => h.1 hh.symm
      simp only [odSet]
      rw [if_neg hne, ih (by simpa [odKeys] using h.2)]
      rfl

theorem odOfPairs_foldl (l : List (ColKey × CellVal)) :
    ∀ acc : CRRow, (odKeys (acc ++ l)).Nodup →
      l.foldl (fun row p => odSet row p.1 p.2) acc = acc ++ l := by
  induction l with
  | nil => intro acc _; simp
  | cons p t ih =>
      intro acc hnd
      have hp : ¬ p.1 ∈ odKeys acc := by
        simp only [odKeys, List.map_append, List.map_cons] at hnd
        have := (List.nodup_append.mp hnd).2.2
        intro hmem
        exact this hmem (List.mem_cons_self _ _)
      rw [List.foldl_cons, odSet_of_not_mem acc p.1 p.2 hp]
      have : acc ++ [(p.1, p.2)] = acc ++ [p] := by rfl
      rw [this]
      rw [ih (acc ++ [p]) (by simpa [odKeys] using hnd)]
      simp

theorem odOfPairs_self (r : CRRow) (h : (odKeys r).Nodup) : odOfPairs r = r := by
  have := odOfPairs_foldl r [] (by simpa [odKeys] using h)
  simpa [odOfPairs] using this

theorem find?_eq_of_mem (l : List ColKey) (a : ColKey) (h : a ∈ l) :
    l.find? (fun x => x = a) = some a := by
  induction l with
  | nil => cases h
  | cons b t ih =>
      by_cases hb : b = a
      · simp [List.find?, hb]
      · have : a ∈ t := by
          cases h with
          | head => exact absurd rfl hb
          | tail _ hm => exact hm
        simp [List.find?, hb, ih this]

theorem odKeys_odSet_of_mem (r : CRRow) (k : ColKey) (v : CellVal) (h : k ∈ odKeys r) :
    odKeys (odSet r k v) = odKeys r := by
  induction r with
  | nil => cases h
  | cons p t ih =>
      by_cases hp : p.1 = k
      · simp [odSet, odKeys, hp]
      · have : k ∈ odKeys t := by
          simp only [odKeys, List.map_cons, List.mem_cons] at h
          rcases h with h | h
          · exact absurd h.symm hp
          · exact h
        simp [odSet, odKeys, hp]
        simpa [odKeys] using ih this

theorem odSet_mem_of_mem (r : CRRow) (k : ColKey) (v : CellVal) (h : k ∈ odKeys r) :
    (k, v) ∈ odSet r k v := by
  induction r with
  | nil => cases h
  | cons p t ih =>
      by_cases hp : p.1 = k
      · simp [odSet, hp]
      · have : k ∈ odKeys t := by
          simp only [odKeys, List.map_cons, List.mem_cons] at h
          rcases h with h | h
          · exact absurd h.symm hp
          · exact h
        simp [odSet, hp]
        right
        exact ih this

theorem odSet_filter_of_false (r : CRRow) (k : ColKey) (v : CellVal) (q : ColKey → Bool)
    (hq : q k = false) :
    (odSet r k v).filter (fun p => q p.1) = r.filter (fun p => q p.1) := by
  induction r with
  | nil => simp [odSet, hq]
  | cons p t ih =>
      by_cases hp : p.1 = k
      · simp [odSet, hp, List.filter_cons, hq]
      · simp only [odSet, if_neg hp, List.filter_cons]
        cases hqp : q p.1 <;> simp [hqp, ih]

theorem odDel_eq_filter (r : CRRow) (k : ColKey) (h : (odKeys r).Nodup) :
    odDel r k = r.filter (fun p => !(decide (p.1 = k))) := by
  induction r with
  | nil => rfl
  | cons p t ih =>
      have hnd' : (odKeys t).Nodup := by
        simpa [odKeys] using h.of_cons
      by_cases hp : p.1 = k
      · have hknot : ¬ k ∈ odKeys t := by
          have := h
          simp only [odKeys, List.map_cons, List.nodup_cons] at this
          rw [← hp]
          exact this.1
        have : t.filter (fun p => !(decide (p.1 = k))) = t := by
          rw [List.filter_eq_self]
          intro a ha
          simp only [Bool.not_eq_true', decide_eq_false_iff_not]
          intro hak
          exact hknot (by simpa [odKeys, ← hak] using List.mem_map_of_mem Prod.fst ha)
        simp [odDel, hp, List.filter_cons, this]
      · simp [odDel, hp, List.filter_cons, ih hnd']

theorem odKeys_filter (r : CRRow) (q : ColKey → Bool) :
    odKeys (r.filter (fun p => q p.1)) = (odKeys r).filter q := by
  induction r with
  | nil => rfl
  | cons p t ih =>
      simp only [List.filter_cons, odKeys, List.map_cons]
      cases hq : q p.1 <;> simp [hq, odKeys] at ih ⊢ <;> exact ih

theorem filter_length_split {α : Type} (l : List α) (p : α → Bool) :
    (l.filter p).length + (l.filter (fun a => !(p a))).length = l.length := by
  induction l with
  | nil => rfl
  | cons a t ih =>
      cases hp : p a <;> simp [List.filter_cons, hp, ← ih] <;> omega

theorem nodup_filter_mem_length (l : List ColKey) :
    ∀ ts : List ColKey, l.Nodup → ts.Nodup → (∀ t ∈ ts, t ∈ l) →
      (l.filter (fun k => decide (k ∈ ts))).length = ts.length := by
  induction l with
  | nil =>
      intro ts _ _ hsub
      have : ts = [] := List.eq_nil_iff_forall_not_mem.mpr (fun a ha =>
        List.not_mem_nil a (hsub a ha))
      simp [this]
  | cons a t ih =>
      intro ts hnd tsnd hsub
      have hat : ¬ a ∈ t := (List.nodup_cons.mp hnd).1
      have htnd : t.Nodup := (List.nodup_cons.mp hnd).2
      by_cases ha : a ∈ ts
      · have herase : t.filter (fun k => decide (k ∈ ts))
            = t.filter (fun k => decide (k ∈ ts.erase a)) := by
          apply List.filter_congr
          intro x hx
          have hxa : x ≠ a := fun hh => hat (hh ▸ hx)
          simp [List.Nodup.mem_erase_iff tsnd, hxa]
        have hsub' : ∀ s ∈ ts.erase a, s ∈ t := by
          intro s hs
          have hsa : s ≠ a ∧ s ∈ ts := (List.Nodup.mem_erase_iff tsnd).mp hs
          rcases List.mem_cons.mp (hsub s hsa.2) with h | h
          · exact absurd h hsa.1
          · exact h
        have := ih (ts.erase a) htnd (List.Nodup.erase a tsnd) hsub'
        have hlen := List.length_erase_of_mem ha
        have hts : 1 ≤ ts.length := List.length_pos.mpr (fun hh => by simp [hh] at ha)
        simp only [List.filter_cons, decide_eq_true_eq, ha, if_pos]
        simp only [List.length_cons, herase, this, hlen]
        omega
      · have hsub' : ∀ s ∈ ts, s ∈ t := by
          intro s hs
          rcases List.mem_cons.mp (hsub s hs) with h | h
          · exact absurd h (fun hh => ha (hh ▸ hs))
          · exact h
        have := ih ts htnd tsnd hsub'
        simp only [List.filter_cons, decide_eq_true_eq, ha]
        simpa using this

theorem foldl_del_eq_filter (nk : ColKey) :
    ∀ (ts : List ColKey) (r : CRRow), (odKeys r).Nodup →
      ts.foldl (fun r tc => if tc ∈ odKeys r ∧ tc ≠ nk then odDel r tc else r) r
        = r.filter (fun p => decide (¬ (p.1 ∈ ts ∧ p.1 ≠ nk))) := by
  intro ts
  induction ts with
  | nil =>
      intro r _
      simp
  | cons tc ts' ih =>
      intro r hnd
      have hstep : (if tc ∈ odKeys r ∧ tc ≠ nk then odDel r tc else r)
          = r.filter (fun p => decide (¬ (p.1 = tc ∧ tc ≠ nk))) := by
        by_cases hc : tc ∈ odKeys r ∧ tc ≠ nk
        · rw [if_pos hc, odDel_eq_filter r tc hnd]
          apply List.filter_congr
          intro p _
          simp [hc.2]
        · rw [if_neg hc]
          by_cases hnk : tc = nk
          · simp [hnk]
          · have hmem : ¬ tc ∈ odKeys r := fun hm => hc ⟨hm, hnk⟩
            rw [eq_comm]
            rw [List.filter_eq_self]
            intro p hp
            have : p.1 ≠ tc := fun hh =>
              hmem (by simpa [odKeys, ← hh] using List.mem_map_of_mem Prod.fst hp)
            simp [this]
      rw [List.foldl_cons, hstep]
      have hnd' : (odKeys (r.filter (fun p => decide (¬ (p.1 = tc ∧ tc ≠ nk))))).Nodup :=
        List.Nodup.sublist ((List.filter_sublist r).map Prod.fst) hnd
      rw [ih _ hnd']
      rw [List.filter_filter]
      apply List.filter_congr
      intro p _
      by_cases h1 : p.1 = tc <;> by_cases h2 : p.1 ∈ ts' <;> by_cases h3 : p.1 = nk <;>
        simp [h1, h2, h3] <;> tauto

theorem exceptMapM_ok_forall {ε α β : Type} (f : α → Except ε β) :
    ∀ (l : List α) (l' : List β), l.mapM f = .ok l' →
      List.Forall₂ (fun a b => f a = .ok b) l l' := by
  intro l
  induction l with
  | nil =>
      intro l' h
      simp only [List.mapM_nil, Pure.pure, Except.pure, Except.ok.injEq] at h
      rw [← h]
      exact List.Forall₂.nil
  | cons a t ih =>
      intro l' h
      rw [List.mapM_cons, except_bind_ok_iff] at h
      obtain ⟨b, hb, h⟩ := h
      rw [except_bind_ok_iff] at h
      obtain ⟨bs, hbs, h⟩ := h
      simp only [Pure.pure, Except.pure, Except.ok.injEq] at h
      rw [← h]
      exact List.Forall₂.cons hb (ih bs hbs)

theorem parse_time_row_structure
    (tz : Tz) (lib : List Str) (tc0 : ColKey) (rest : List ColKey) (toUtc : Bool)
    (row orow : CRRow)
    (hnd : (tc0 :: rest).Nodup)
    (hknd : (odKeys row).Nodup)
    (hsub : ∀ tc ∈ tc0 :: rest, tc ∈ odKeys row)
    (h : parse_time_row tz lib (tc0 :: rest) none none toUtc row = .ok orow) :
    odKeys orow = (odKeys row).filter (fun k => decide (k = tc0 ∨ ¬ k ∈ tc0 :: rest)) ∧
    orow.filter (fun p => decide (¬ p.1 ∈ tc0 :: rest))
      = row.filter (fun p => decide (¬ p.1 ∈ tc0 :: rest)) ∧
    orow.length = row.length - (tc0 :: rest).length + 1 ∧
    (∃ t, (tc0, CellVal.ts t) ∈ orow) := by
  have htc0 : tc0 ∈ odKeys row := hsub tc0 (List.mem_cons_self _ _)
  have hfind : find_first_time_column_name (odKeys row) (tc0 :: rest) = .ok tc0 := by
    simp [find_first_time_column_name, find?_eq_of_mem (odKeys row) tc0 htc0]
  simp only [parse_time_row, hfind, Bind.bind, Except.bind, Option.getD_none] at h
  cases hstrs : List.mapM CellVal.asStr
      ((row.filter (fun p => (tc0 :: rest).contains p.1)).map Prod.snd) with
  | error e => rw [hstrs] at h; simp at h
  | ok strs =>
  rw [hstrs] at h
  dsimp only at h
  cases htval : parse_time_values tz lib strs false toUtc with
  | error e => rw [htval] at h; simp at h
  | ok tval =>
  rw [htval] at h
  dsimp only at h
  simp only [Pure.pure, Except.pure, Except.ok.injEq] at h
  have hmapid : row.map (fun p => ((if p.1 = tc0 then tc0 else p.1), p.2)) = row := by
    have : ∀ p ∈ row, ((if p.1 = tc0 then tc0 else p.1), p.2) = p := by
      intro p _
      by_cases hp : p.1 = tc0
      · rw [if_pos hp, ← hp]
      · rw [if_neg hp]
    calc row.map (fun p => ((if p.1 = tc0 then tc0 else p.1), p.2))
        = row.map id := List.map_congr_left this
      _ = row := List.map_id row
  rw [hmapid, odOfPairs_self row hknd] at h
  have hkW : odKeys (odSet row tc0 (CellVal.ts tval)) = odKeys row :=
    odKeys_odSet_of_mem row tc0 _ htc0
  have hndW : (odKeys (odSet row tc0 (CellVal.ts tval))).Nodup := by rw [hkW]; exact hknd
  rw [foldl_del_eq_filter tc0 (tc0 :: rest) _ hndW] at h
  subst h
  have hpred : ∀ k : ColKey, (decide (¬ (k ∈ tc0 :: rest ∧ k ≠ tc0)))
      = (decide (k = tc0 ∨ ¬ k ∈ tc0 :: rest)) := by
    intro k
    by_cases h1 : k = tc0 <;> by_cases h2 : k ∈ tc0 :: rest <;> simp [h1, h2]
  refine ⟨?_, ?_, ?_, ?_⟩
  · rw [odKeys_filter _ (fun k => decide (¬ (k ∈ tc0 :: rest ∧ k ≠ tc0))), hkW]
    exact List.filter_congr (fun k _ => hpred k)
  · rw [List.filter_filter]
    have hstep : (odSet row tc0 (CellVal.ts tval)).filter
        (fun p => decide (¬ p.1 ∈ tc0 :: rest) && decide (¬ (p.1 ∈ tc0 :: rest ∧ p.1 ≠ tc0)))
        = (odSet row tc0 (CellVal.ts tval)).filter (fun p => decide (¬ p.1 ∈ tc0 :: rest)) := by
      apply List.filter_congr
      intro p _
      by_cases h2 : p.1 ∈ tc0 :: rest <;> simp [h2]
    rw [hstep]
    exact odSet_filter_of_false row tc0 (CellVal.ts tval)
      (fun k => decide (¬ k ∈ tc0 :: rest)) (by simp)
  · have hWlen : (odSet row tc0 (CellVal.ts tval)).length = row.length := by
      have h1 : (odKeys (odSet row tc0 (CellVal.ts tval))).length = (odKeys row).length := by
        rw [hkW]
      simpa [odKeys] using h1
    have hsplit := filter_length_split (odSet row tc0 (CellVal.ts tval))
      (fun p => decide (¬ (p.1 ∈ tc0 :: rest ∧ p.1 ≠ tc0)))
    have hnotpred : ∀ p : ColKey × CellVal,
        (!(decide (¬ (p.1 ∈ tc0 :: rest ∧ p.1 ≠ tc0)))) = (decide (p.1 ∈ rest)) := by
      intro p
      have htc0rest : ¬ tc0 ∈ rest := (List.nodup_cons.mp hnd).1
      by_cases h1 : p.1 = tc0 <;> by_cases h2 : p.1 ∈ rest <;>
        simp [h1, h2, htc0rest]
    have hneg : (odSet row tc0 (CellVal.ts tval)).filter
        (fun p => !(decide (¬ (p.1 ∈ tc0 :: rest ∧ p.1 ≠ tc0))))
        = (odSet row tc0 (CellVal.ts tval)).filter (fun p => decide (p.1 ∈ rest)) :=
      List.filter_congr (fun p _ => hnotpred p)
    have hnegrow : (odSet row tc0 (CellVal.ts tval)).filter (fun p => decide (p.1 ∈ rest))
        = row.filter (fun p => decide (p.1 ∈ rest)) :=
      odSet_filter_of_false row tc0 (CellVal.ts tval)
        (fun k => decide (k ∈ rest)) (by simp [(List.nodup_cons.mp hnd).1])
    have hcnt : (row.filter (fun p => decide (p.1 ∈ rest))).length = rest.length := by
      have hkeys : odKeys (row.filter (fun p => decide (p.1 ∈ rest)))
          = (odKeys row).filter (fun k => decide (k ∈ rest)) :=
        odKeys_filter row (fun k => decide (k ∈ rest))
      have hlen1 : (row.filter (fun p => decide (p.1 ∈ rest))).length
          = ((odKeys row).filter (fun k => decide (k ∈ rest))).length := by
        rw [← hkeys]
        simp [odKeys]
      rw [hlen1]
      exact nodup_filter_mem_length (odKeys row) rest hknd (List.nodup_cons.mp hnd).2
        (fun t ht => hsub t (List.mem_cons_of_mem _ ht))
    have hge : (tc0 :: rest).length ≤ row.length := by
      have := nodup_filter_mem_length (odKeys row) (tc0 :: rest) hknd hnd hsub
      have hle := List.length_filter_le (fun k => decide (k ∈ tc0 :: rest)) (odKeys row)
      have hkeyslen : (odKeys row).length = row.length := by simp [odKeys]
      omega
    rw [hneg, hnegrow, hcnt] at hsplit
    simp only [List.length_cons] at hge ⊢
    omega
  · refine ⟨tval, ?_⟩
    rw [List.mem_filter]
    exact ⟨odSet_mem_of_mem row tc0 _ htc0, by simp⟩

/--
C2 (amended): for every input row sequence (rows with unique keys, as the
`OrderedDict` row model guarantees) and valid duplicate-free `time_columns`
(non-empty, every listed time column present among each row's keys), a
successful `parse_time`/`convert_time` call returns a new row sequence of the
same length and row order in which every output row has exactly
`(original column count) - len(time_columns) + 1` keys — all time columns
removed and exactly one parsed-timestamp column inserted at the insertion
key's position — and the relative order (and values) of all non-time columns
is preserved.
-/
theorem C2_parse_time_column_invariant :
    ∀ (tz : Tz) (lib : List Str) (data : List CRRow) (tc0 : ColKey) (rest : List ColKey)
      (toUtc : Bool) (out : List CRRow),
      (tc0 :: rest).Nodup →
      (∀ row ∈ data, (odKeys row).Nodup ∧ ∀ tc ∈ tc0 :: rest, tc ∈ odKeys row) →
      parse_time tz lib data (tc0 :: rest) none none toUtc = .ok out →
      out.length = data.length ∧
      List.Forall₂ (fun row orow =>
        odKeys orow = (odKeys row).filter (fun k => decide (k = tc0 ∨ ¬ k ∈ tc0 :: rest)) ∧
        orow.filter (fun p => decide (¬ p.1 ∈ tc0 :: rest))
          = row.filter (fun p => decide (¬ p.1 ∈ tc0 :: rest)) ∧
        orow.length = row.length - (tc0 :: rest).length + 1 ∧
        (∃ t, (tc0, CellVal.ts t) ∈ orow)) data out := by
  intro tz lib data tc0 rest toUtc out hnd hrows h
  simp only [parse_time, List.isEmpty_cons, Bool.false_eq_true, if_false] at h
  have hfa := exceptMapM_ok_forall _ data out h
  refine ⟨(List.Forall₂.length_eq hfa).symm, ?_⟩
  clear h
  revert hrows
  induction hfa with
  | nil => intro _; exact List.Forall₂.nil
  | cons hro htail ih =>
      intro hrows
      have hhead := hrows _ (List.mem_cons_self _ _)
      exact List.Forall₂.cons
        (parse_time_row_structure tz lib tc0 rest toUtc _ _ hnd hhead.1 hhead.2 hro)
        (ih (fun r hr => hrows r (List.mem_cons_of_mem _ hr)))

/--
Counterexample to C2 as frozen: the claim's validity condition ("non-empty,
with every listed time column present among each row's keys") admits a
duplicated time-column list, and then the per-row key-count formula fails:
with `time_columns = [0, 0]` on a two-column row, the output row keeps 2 keys
while the formula `(original column count) - len(time_columns) + 1` gives 1.
-/
theorem C2_counterexample_duplicate_time_columns :
    ([ColKey.idx 0, ColKey.idx 0] : List ColKey) ≠ [] ∧
    (∀ tc ∈ ([ColKey.idx 0, ColKey.idx 0] : List ColKey),
      tc ∈ odKeys
        [(ColKey.idx 0, CellVal.raw "2016".toList), (ColKey.idx 1, CellVal.raw "x".toList)]) ∧
    (parse_time utcTz ["%Y".toList]
        [[(ColKey.idx 0, CellVal.raw "2016".toList), (ColKey.idx 1, CellVal.raw "x".toList)]]
        [ColKey.idx 0, ColKey.idx 0] none none false).map (fun rs => rs.map List.length)
      = .ok [2] ∧
    (2 : Nat) ≠ 2 - ([ColKey.idx 0, ColKey.idx 0] : List ColKey).length + 1 :=
  ⟨by decide, by decide, by decide, by decide⟩

/-- Witness for the amended C2 on a concrete two-column row with one time column. -/
theorem C2_parse_time_witness :
    ([ColKey.idx 0] : List ColKey).Nodup ∧
    parse_time utcTz ["%Y".toList]
        [[(ColKey.idx 0, CellVal.raw "2016".toList), (ColKey.idx 1, CellVal.raw "x".toList)]]
        [ColKey.idx 0] none none false
      = .ok [[(ColKey.idx 0, CellVal.ts ⟨1451606400, 0⟩),
          (ColKey.idx 1, CellVal.raw "x".toList)]] ∧
    ([[(ColKey.idx 0, CellVal.ts (⟨1451606400, 0⟩ : AwareDT)),
        (ColKey.idx 1, CellVal.raw "x".toList)]] : List CRRow).length
      = ([[(ColKey.idx 0, CellVal.raw "2016".toList),
          (ColKey.idx 1, CellVal.raw "x".toList)]] : List CRRow).length :=
  ⟨by decide, by decide,
    (C2_parse_time_column_invariant utcTz ["%Y".toList]
      [[(ColKey.idx 0, CellVal.raw "2016".toList), (ColKey.idx 1, CellVal.raw "x".toList)]]
      (ColKey.idx 0) [] false
      [[(ColKey.idx 0, CellVal.ts ⟨1451606400, 0⟩), (ColKey.idx 1, CellVal.raw "x".toList)]]
      (by decide) (by decide) (by decide)).1⟩
